import Mathlib

/-!
Verification of the `ExprStr` expression compiler in `beatricetools.py`.

`ExprStr` walks a Python `ast` expression tree (produced by
`ast.parse(string, mode='eval')`, an external front end) and builds a
token buffer (`self.stack`, a Python list appended at the end) in reverse
program order; `__str__` reverses the whole buffer and joins with spaces,
yielding the postfix program string.

The shallow embedding below mirrors that code:
* `PyExpr` models the Python `ast` expression node kinds that can reach
  the visitor, including kinds with no `visit_*` method (subscripting,
  string literals, attribute access), for which `ast.NodeVisitor`
  dispatches to `generic_visit`, which silently visits the children in
  field order and pushes nothing for the node itself.
* `ExprStr.visit` models the visitor dispatch; the token buffer is passed
  explicitly as a `List String` appended at the end, exactly like the
  Python `self.stack.append` calls.
* Python raises `SyntaxError` with distinct messages; `ExprError` gives
  each message class its own constructor, and `pythonError` stands for
  non-`SyntaxError` crashes (`IndexError` on malformed node shapes the
  parser never produces, `AttributeError` when a call's `func` is not a
  plain name).
-/

/-- Binary arithmetic operator kinds of the Python `ast` module
(`ast.BinOp.op` values). -/
inductive BinOpKind where
  | add | sub | mult | div | mod | pow
  | lshift | rshift | bitOr | bitXor | bitAnd | floorDiv | matMult
  deriving DecidableEq, Repr

/-- Comparison operator kinds of the Python `ast` module
(`ast.Compare.ops` elements). -/
inductive CmpOpKind where
  | eq | notEq | lt | ltE | gt | gtE | isOp | isNotOp | inOp | notInOp
  deriving DecidableEq, Repr

/-- Unary operator kinds of the Python `ast` module (`ast.UnaryOp.op`). -/
inductive UnaryOpKind where
  | not | uSub | uAdd | invert
  deriving DecidableEq, Repr

/-- Boolean operator kinds of the Python `ast` module (`ast.BoolOp.op`). -/
inductive BoolOpKind where
  | and | or
  deriving DecidableEq, Repr

/-- Expression-tree nodes, mirroring the Python `ast` node kinds that the
`ExprStr` visitor can receive from `ast.parse(string, mode='eval')`.

`num s` is a numeric literal node carrying `str(node.n)`, the text
`visit_Num` pushes.  `call` carries the whole `func` expression because
`visit_Call` accesses `node.func.id`, which crashes when `func` is not a
name node.  `strLit`, `subscript` and `attribute` have no `visit_*`
method in the source: `ast.NodeVisitor` falls back to `generic_visit`,
which visits child expression nodes in field order and emits nothing. -/
inductive PyExpr where
  | num (s : String)
  | name (id : String)
  | compare (left : PyExpr) (ops : List CmpOpKind) (comparators : List PyExpr)
  | unaryOp (op : UnaryOpKind) (operand : PyExpr)
  | boolOp (op : BoolOpKind) (values : List PyExpr)
  | binOp (left : PyExpr) (op : BinOpKind) (right : PyExpr)
  | call (func : PyExpr) (args : List PyExpr)
  | ifExp (test : PyExpr) (body : PyExpr) (orelse : PyExpr)
  | strLit (s : String)
  | subscript (value : PyExpr) (slice : PyExpr)
  | attributeNode (value : PyExpr) (attr : String)
  deriving Repr

/-- Error classes of the compiler.  In Python every validation failure is
a `SyntaxError` whose message determines the class; `pythonError` models
the non-`SyntaxError` crashes reachable only on node shapes the parser
never produces. -/
inductive ExprError where
  | invalidVariable (id : String)
  | invalidOperator
  | unsupportedChaining
  | unknownFunction (id : String)
  | arityError (id : String) (required : Nat) (provided : Nat)
  | pythonError
  deriving DecidableEq, Repr

namespace ExprStr

/-- `ExprStr.variables = 'abcdefghijklmnopqrstuvwxyz'` (the source calls
this class attribute `variables`, a reserved word in Lean). -/
def variablesStr : String := "abcdefghijklmnopqrstuvwxyz"

/-- `startsWith sub s` is true when `sub` is an initial segment of `s`
(character-list version of Python string prefix testing). -/
def startsWith : List Char → List Char → Bool
  | [], _ => true
  | _ :: _, [] => false
  | a :: as, b :: bs => a == b && startsWith as bs

/-- Python's substring operator `sub in s` over character lists: some
suffix of `s` starts with `sub`. -/
def strContains (sub : List Char) : List Char → Bool
  | [] => startsWith sub []
  | c :: rest => startsWith sub (c :: rest) || strContains sub rest

/-- The `ExprStr.operators` dict restricted to `ast.BinOp` operator keys:
`Add Sub Mult Div` map to their mnemonics, every other binary operator
kind is absent. -/
def operatorsBin : BinOpKind → Option String
  | .add  => some "+"
  | .sub  => some "-"
  | .mult => some "*"
  | .div  => some "/"
  | _ => none

/-- The `ExprStr.operators` dict restricted to comparison operator keys:
`Eq Gt Lt GtE LtE` map to their mnemonics, every other comparison kind is
absent. -/
def operatorsCmp : CmpOpKind → Option String
  | .eq  => some "="
  | .gt  => some ">"
  | .lt  => some "<"
  | .gtE => some ">="
  | .ltE => some "<="
  | _ => none

/-- The `ExprStr.operators` dict restricted to unary operator keys: only
`Not` is present. -/
def operatorsUnary : UnaryOpKind → Option String
  | .not => some "not"
  | _ => none

/-- The `ExprStr.operators` dict restricted to boolean operator keys:
both `And` and `Or` are present. -/
def operatorsBool : BoolOpKind → Option String
  | .and => some "and"
  | .or  => some "or"

/-- The `ExprStr.functions` dict: fixed-name functions and their arity. -/
def functions : String → Option Nat
  | "abs"  => some 1
  | "exp"  => some 1
  | "log"  => some 1
  | "sqrt" => some 1
  | "max"  => some 2
  | "min"  => some 2
  | "pow"  => some 2
  | _ => none

mutual

/-- The visitor: `visit e stack` returns the token buffer after visiting
node `e`, with `stack` the buffer contents on entry (Python appends to
`self.stack`; here the updated buffer is returned).  Each arm mirrors the
corresponding `visit_*` method, and the `strLit`, `subscript` and
`attribute` arms mirror the inherited `generic_visit` fallback, which
visits child nodes in field order and pushes nothing. -/
def visit : PyExpr → List String → Except ExprError (List String)
  | .num s, stack => .ok (stack ++ [s])
  | .name id, stack =>
      if id.length > 1 || !(strContains id.data variablesStr.data) then
        .error (.invalidVariable id)
      else
        .ok (stack ++ [id])
  | .compare left ops comparators, stack =>
      if ops.length > 1 then .error .unsupportedChaining
      else
        match ops with
        | [] => .error .pythonError
        | op :: _ =>
          match operatorsCmp op with
          | none => .error .invalidOperator
          | some m =>
            match comparators with
            | [] => .error .pythonError
            | c :: _ => do
                let s1 ← visit c (stack ++ [m])
                visit left s1
  | .unaryOp op operand, stack =>
      match operatorsUnary op with
      | none => .error .invalidOperator
      | some m => visit operand (stack ++ [m])
  | .boolOp op values, stack =>
      match operatorsBool op with
      | none => .error .invalidOperator
      | some m =>
        match values with
        | v0 :: v1 :: _ => do
            let s1 ← visit v0 (stack ++ [m])
            visit v1 s1
        | _ => .error .pythonError
  | .binOp left op right, stack =>
      match operatorsBin op with
      | none => .error .invalidOperator
      | some m => do
          let s1 ← visit right (stack ++ [m])
          visit left s1
  | .call func args, stack =>
      match func with
      | .name fid =>
          match functions fid with
          | none =>
              -- `functions_re` is empty in this revision, so the pattern
              -- loop never matches and the unknown-function error fires.
              .error (.unknownFunction fid)
          | some argsRequired =>
              if args.length ≠ argsRequired then
                .error (.arityError fid argsRequired args.length)
              else
                visitArgsRev args (stack ++ [fid])
      | _ => .error .pythonError
  | .ifExp test body orelse, stack => do
      let s1 ← visit orelse (stack ++ ["?"])
      let s2 ← visit body s1
      visit test s2
  | .strLit _, stack => .ok stack
  | .subscript value slice, stack => do
      let s1 ← visit value stack
      visit slice s1
  | .attributeNode value _, stack => visit value stack

/-- The loop `for arg in node.args[::-1]: self.visit(arg)` in
`visit_Call`: visits the list's elements from last to first. -/
def visitArgsRev : List PyExpr → List String → Except ExprError (List String)
  | [], stack => .ok stack
  | e :: es, stack => do
      let s1 ← visitArgsRev es stack
      visit e s1

end

/-- `str(ExprStr(string))` once the front end has produced tree `e`:
visit with an empty buffer, then reverse the buffer and join with single
spaces (`' '.join(self.stack[::-1])`). -/
def compileExpr (e : PyExpr) : Except ExprError String :=
  (visit e []).map (fun stack => String.intercalate " " stack.reverse)

/-- The compiled token sequence in final (postfix) order: the reversal of
the token buffer produced by visiting `e` on an empty buffer. -/
def postfixTokens (e : PyExpr) : Except ExprError (List String) :=
  (visit e []).map List.reverse

mutual

/-- Nesting depth of an expression tree: 1 for a leaf, one more than the
deepest child otherwise (the recursion depth the Python visitor needs). -/
def depth : PyExpr → Nat
  | .num _ => 1
  | .name _ => 1
  | .compare left _ comparators => 1 + max (depth left) (depthList comparators)
  | .unaryOp _ operand => 1 + depth operand
  | .boolOp _ values => 1 + depthList values
  | .binOp left _ right => 1 + max (depth left) (depth right)
  | .call func args => 1 + max (depth func) (depthList args)
  | .ifExp test body orelse => 1 + max (depth test) (max (depth body) (depth orelse))
  | .strLit _ => 1
  | .subscript value slice => 1 + max (depth value) (depth slice)
  | .attributeNode value _ => 1 + depth value

/-- Maximum depth of a list of sibling subtrees. -/
def depthList : List PyExpr → Nat
  | [] => 0
  | e :: es => max (depth e) (depthList es)

end

/-- Sequencing for the fuelled visitor: `none` (out of fuel) and errors
propagate, successes feed the continuation. -/
def andThenF (x : Option (Except ExprError (List String)))
    (f : List String → Option (Except ExprError (List String))) :
    Option (Except ExprError (List String)) :=
  match x with
  | none => none
  | some (.error e) => some (.error e)
  | some (.ok s) => f s

mutual

/-- The visitor instrumented with a recursion-depth budget: `none` means
the budget was exhausted; otherwise the result is exactly `visit`'s.  One
unit of fuel is consumed per tree level; the argument loop of
`visit_Call`, like the Python `for` loop, consumes none. -/
def visitFuel : Nat → PyExpr → List String → Option (Except ExprError (List String))
  | 0, _, _ => none
  | _ + 1, .num s, stack => some (.ok (stack ++ [s]))
  | _ + 1, .name id, stack =>
      if id.length > 1 || !(strContains id.data variablesStr.data) then
        some (.error (.invalidVariable id))
      else
        some (.ok (stack ++ [id]))
  | fuel + 1, .compare left ops comparators, stack =>
      if ops.length > 1 then some (.error .unsupportedChaining)
      else
        match ops with
        | [] => some (.error .pythonError)
        | op :: _ =>
          match operatorsCmp op with
          | none => some (.error .invalidOperator)
          | some m =>
            match comparators with
            | [] => some (.error .pythonError)
            | c :: _ =>
                andThenF (visitFuel fuel c (stack ++ [m])) (fun s1 =>
                  visitFuel fuel left s1)
  | fuel + 1, .unaryOp op operand, stack =>
      match operatorsUnary op with
      | none => some (.error .invalidOperator)
      | some m => visitFuel fuel operand (stack ++ [m])
  | fuel + 1, .boolOp op values, stack =>
      match operatorsBool op with
      | none => some (.error .invalidOperator)
      | some m =>
        match values with
        | v0 :: v1 :: _ =>
            andThenF (visitFuel fuel v0 (stack ++ [m])) (fun s1 =>
              visitFuel fuel v1 s1)
        | _ => some (.error .pythonError)
  | fuel + 1, .binOp left op right, stack =>
      match operatorsBin op with
      | none => some (.error .invalidOperator)
      | some m =>
          andThenF (visitFuel fuel right (stack ++ [m])) (fun s1 =>
            visitFuel fuel left s1)
  | fuel + 1, .call func args, stack =>
      match func with
      | .name fid =>
          match functions fid with
          | none => some (.error (.unknownFunction fid))
          | some argsRequired =>
              if args.length ≠ argsRequired then
                some (.error (.arityError fid argsRequired args.length))
              else
                visitArgsRevFuel fuel args (stack ++ [fid])
      | _ => some (.error .pythonError)
  | fuel + 1, .ifExp test body orelse, stack =>
      andThenF (visitFuel fuel orelse (stack ++ ["?"])) (fun s1 =>
        andThenF (visitFuel fuel body s1) (fun s2 =>
          visitFuel fuel test s2))
  | _ + 1, .strLit _, stack => some (.ok stack)
  | fuel + 1, .subscript value slice, stack =>
      andThenF (visitFuel fuel value stack) (fun s1 =>
        visitFuel fuel slice s1)
  | fuel + 1, .attributeNode value _, stack => visitFuel fuel value stack
termination_by fuel _ _ => (fuel, 0)

/-- Fuelled version of the reversed-argument loop; iteration along the
list consumes no fuel, matching the Python `for` loop. -/
def visitArgsRevFuel (fuel : Nat) : List PyExpr → List String →
    Option (Except ExprError (List String))
  | [], stack => some (.ok stack)
  | e :: es, stack =>
      andThenF (visitArgsRevFuel fuel es stack) (fun s1 => visitFuel fuel e s1)
termination_by l _ => (fuel, l.length + 1)

end

end ExprStr

namespace ExprStr

theorem emap_ok {α β ε : Type} (f : α → β) (x : α) :
    (Except.ok x : Except ε α).map f = .ok (f x) := rfl

theorem emap_error {α β ε : Type} (f : α → β) (e : ε) :
    (Except.error e : Except ε α).map f = .error e := rfl

theorem ebind_ok {α β ε : Type} (x : α) (f : α → Except ε β) :
    (Except.ok x : Except ε α) >>= f = f x := rfl

theorem ebind_error {α β ε : Type} (e : ε) (f : α → Except ε β) :
    (Except.error e : Except ε α) >>= f = .error e := rfl

mutual

/-- Frame property of the token buffer: visiting a node only appends to
the buffer, so visiting on buffer `s` equals visiting on the empty buffer
with `s` prepended to the result, and errors do not depend on the
buffer's prior contents. -/
theorem visit_frame (e : PyExpr) (s : List String) :
    visit e s = (visit e []).map (fun out => s ++ out) := by
  cases e with
  | num n => simp [visit, emap_ok]
  | name id =>
      by_cases h : (id.length > 1 || !(strContains id.data variablesStr.data)) = true <;>
        simp [visit, h, emap_ok, emap_error]
  | compare left ops comparators =>
      cases ops with
      | nil => simp [visit, emap_error]
      | cons op rest =>
        by_cases hch : 0 < rest.length
        · simp [visit, hch, emap_error]
        · cases hop : operatorsCmp op with
          | none => simp [visit, hch, hop, emap_error]
          | some m =>
            cases comparators with
            | nil => simp [visit, hch, hop, emap_error]
            | cons c cs =>
              simp only [visit, hch, hop, if_false, List.nil_append]
              rw [visit_frame c (s ++ [m]), visit_frame c [m]]
              cases hc : visit c [] with
              | error err => simp [hch, emap_error, ebind_error]
              | ok oc =>
                simp only [emap_ok, ebind_ok]
                rw [visit_frame left (s ++ [m] ++ oc), visit_frame left ([m] ++ oc)]
                cases hl : visit left [] with
                | error err => simp [hch, emap_error]
                | ok ol => simp [hch, emap_ok, List.append_assoc]
  | unaryOp op operand =>
      cases hop : operatorsUnary op with
      | none => simp [visit, hop, emap_error]
      | some m =>
        simp only [visit, hop, List.nil_append]
        rw [visit_frame operand (s ++ [m]), visit_frame operand [m]]
        cases hv : visit operand [] with
        | error err => simp [emap_error]
        | ok oo => simp [emap_ok, List.append_assoc]
  | boolOp op values =>
      cases hop : operatorsBool op with
      | none => simp [visit, hop, emap_error]
      | some m =>
        match values with
        | [] => simp [visit, hop, emap_error]
        | [v] => simp [visit, hop, emap_error]
        | v0 :: v1 :: rest =>
          simp only [visit, hop, List.nil_append]
          rw [visit_frame v0 (s ++ [m]), visit_frame v0 [m]]
          cases h0 : visit v0 [] with
          | error err => simp [emap_error, ebind_error]
          | ok o0 =>
            simp only [emap_ok, ebind_ok]
            rw [visit_frame v1 (s ++ [m] ++ o0), visit_frame v1 ([m] ++ o0)]
            cases h1 : visit v1 [] with
            | error err => simp [emap_error]
            | ok o1 => simp [emap_ok, List.append_assoc]
  | binOp left op right =>
      cases hop : operatorsBin op with
      | none => simp [visit, hop, emap_error]
      | some m =>
        simp only [visit, hop, List.nil_append]
        rw [visit_frame right (s ++ [m]), visit_frame right [m]]
        cases hr : visit right [] with
        | error err => simp [emap_error, ebind_error]
        | ok oR =>
          simp only [emap_ok, ebind_ok]
          rw [visit_frame left (s ++ [m] ++ oR), visit_frame left ([m] ++ oR)]
          cases hl : visit left [] with
          | error err => simp [emap_error]
          | ok oL => simp [emap_ok, List.append_assoc]
  | call func args =>
      cases func with
      | name fid =>
        cases hf : functions fid with
        | none => simp [visit, hf, emap_error]
        | some req =>
          by_cases ha : args.length = req
          · have hne : ¬(args.length ≠ req) := by simp [ha]
            simp only [visit, hf, List.nil_append, if_neg hne]
            rw [visitArgsRev_frame args (s ++ [fid]), visitArgsRev_frame args [fid]]
            cases hv : visitArgsRev args [] with
            | error err => simp [emap_error]
            | ok oo => simp [emap_ok, List.append_assoc]
          · simp [visit, hf, ha, emap_error]
      | num n => simp [visit, emap_error]
      | compare l o c => simp [visit, emap_error]
      | unaryOp o oper => simp [visit, emap_error]
      | boolOp o vs => simp [visit, emap_error]
      | binOp l o r => simp [visit, emap_error]
      | call f as => simp [visit, emap_error]
      | ifExp t b o => simp [visit, emap_error]
      | strLit str => simp [visit, emap_error]
      | subscript v sl => simp [visit, emap_error]
      | attributeNode v a => simp [visit, emap_error]
  | ifExp test body orelse =>
      simp only [visit, List.nil_append]
      rw [visit_frame orelse (s ++ ["?"]), visit_frame orelse ["?"]]
      cases ho : visit orelse [] with
      | error err => simp [emap_error, ebind_error]
      | ok oO =>
        simp only [emap_ok, ebind_ok]
        rw [visit_frame body (s ++ ["?"] ++ oO), visit_frame body (["?"] ++ oO)]
        cases hb : visit body [] with
        | error err => simp [emap_error, ebind_error]
        | ok oB =>
          simp only [emap_ok, ebind_ok]
          rw [visit_frame test (s ++ ["?"] ++ oO ++ oB),
            visit_frame test (["?"] ++ oO ++ oB)]
          cases ht : visit test [] with
          | error err => simp [emap_error]
          | ok oT => simp [emap_ok, List.append_assoc]
  | strLit str => simp [visit, emap_ok]
  | subscript value slice =>
      simp only [visit]
      rw [visit_frame value s]
      cases hv : visit value [] with
      | error err => simp [emap_error, ebind_error]
      | ok oV =>
        simp only [emap_ok, ebind_ok]
        rw [visit_frame slice (s ++ oV), visit_frame slice oV]
        cases hs : visit slice [] with
        | error err => simp [emap_error]
        | ok oS => simp [emap_ok, List.append_assoc]
  | attributeNode value a =>
      simp only [visit]
      exact visit_frame value s

/-- Frame property for the reversed-argument loop of `visit_Call`. -/
theorem visitArgsRev_frame (l : List PyExpr) (s : List String) :
    visitArgsRev l s = (visitArgsRev l []).map (fun out => s ++ out) := by
  cases l with
  | nil => simp [visitArgsRev, emap_ok]
  | cons e es =>
      simp only [visitArgsRev]
      rw [visitArgsRev_frame es s]
      cases hv : visitArgsRev es [] with
      | error err => simp [emap_error, ebind_error]
      | ok oes =>
        simp only [emap_ok, ebind_ok]
        rw [visit_frame e (s ++ oes), visit_frame e oes]
        cases he : visit e [] with
        | error err => simp [emap_error]
        | ok oe => simp [emap_ok, List.append_assoc]

end

end ExprStr

example : ExprStr.compileExpr (.binOp (.name "a") .add (.name "b")) = .ok "a b +" := by
  rfl

namespace ExprStr

/-- `postfixTokens e = .ok p` exactly when the raw visit of `e` succeeds
with the reversed buffer `p.reverse`. -/
theorem postfixTokens_ok_iff (e : PyExpr) (p : List String) :
    postfixTokens e = .ok p ↔ visit e [] = .ok p.reverse := by
  unfold postfixTokens
  cases hv : visit e [] with
  | error err => simp [emap_error]
  | ok o =>
      simp only [emap_ok, Except.ok.injEq]
      constructor
      · rintro rfl; simp
      · rintro rfl; simp

/-- Emitting a whole argument list: if every argument visits successfully
from the empty buffer, the reversed-argument loop of `visit_Call` appends
the arguments' buffer contributions in reverse source order. -/
theorem visitArgsRev_emits (args : List PyExpr) (outs : List (List String))
    (h : args.map (fun a => visit a []) = outs.map Except.ok) :
    visitArgsRev args [] = .ok outs.reverse.flatten := by
  induction args generalizing outs with
  | nil =>
      cases outs with
      | nil => simp [visitArgsRev]
      | cons o os => simp at h
  | cons a as ih =>
      cases outs with
      | nil => simp at h
      | cons o os =>
          simp only [List.map_cons, List.cons.injEq] at h
          obtain ⟨ha, has⟩ := h
          simp only [visitArgsRev]
          rw [ih os has]
          simp only [ebind_ok]
          rw [visit_frame a os.reverse.flatten, ha]
          simp [emap_ok, List.flatten_append]

end ExprStr

/-- C1: for every binary arithmetic node whose operator has mnemonic `m`
in the operator table and whose operands compile to postfix token lists
`pl` and `pr`, the node's compiled token sequence is `pl ++ pr ++ [m]` —
left operand's tokens, right operand's tokens, operator mnemonic — and in
particular the trees of `"a + b"` and `"a - b * c"` compile to `"a b +"`
and `"a b c * -"`. -/
theorem binOp_postfix_order
    (left right : PyExpr) (op : BinOpKind) (m : String)
    (hop : ExprStr.operatorsBin op = some m)
    (pl pr : List String)
    (hl : ExprStr.postfixTokens left = .ok pl)
    (hr : ExprStr.postfixTokens right = .ok pr) :
    ExprStr.postfixTokens (.binOp left op right) = .ok (pl ++ pr ++ [m])
    ∧ ExprStr.compileExpr (.binOp (.name "a") .add (.name "b")) = .ok "a b +"
    ∧ ExprStr.compileExpr
        (.binOp (.name "a") .sub (.binOp (.name "b") .mult (.name "c")))
        = .ok "a b c * -" := by
  refine ⟨?_, rfl, rfl⟩
  rw [ExprStr.postfixTokens_ok_iff] at hl hr ⊢
  simp only [ExprStr.visit, hop, List.nil_append]
  rw [ExprStr.visit_frame right [m], hr]
  simp only [ExprStr.emap_ok, ExprStr.ebind_ok]
  rw [ExprStr.visit_frame left ([m] ++ pr.reverse), hl]
  simp [ExprStr.emap_ok, List.append_assoc]

/-- Witness for C1 at the tree of `"a + b"`. -/
theorem binOp_postfix_order_witness :
    ExprStr.postfixTokens (.binOp (.name "a") .add (.name "b"))
      = .ok (["a"] ++ ["b"] ++ ["+"]) :=
  (binOp_postfix_order (.name "a") (.name "b") .add "+" rfl ["a"] ["b"] rfl rfl).1

/-- C5: for every conditional-expression node whose test, consequent
(`body`) and alternate (`orelse`) compile to postfix token lists `pt`,
`pb`, `po`, the node's compiled token sequence is the test's tokens, then
the consequent's, then the alternate's, then the marker token `?`; in
particular the tree of `"y if x else z"` compiles to `"x y z ?"`. -/
theorem ifExp_postfix_order
    (test body orelse : PyExpr) (pt pb po : List String)
    (ht : ExprStr.postfixTokens test = .ok pt)
    (hb : ExprStr.postfixTokens body = .ok pb)
    (ho : ExprStr.postfixTokens orelse = .ok po) :
    ExprStr.postfixTokens (.ifExp test body orelse) = .ok (pt ++ pb ++ po ++ ["?"])
    ∧ ExprStr.compileExpr (.ifExp (.name "x") (.name "y") (.name "z")) = .ok "x y z ?" := by
  refine ⟨?_, rfl⟩
  rw [ExprStr.postfixTokens_ok_iff] at ht hb ho ⊢
  simp only [ExprStr.visit, List.nil_append]
  rw [ExprStr.visit_frame orelse ["?"], ho]
  simp only [ExprStr.emap_ok, ExprStr.ebind_ok]
  rw [ExprStr.visit_frame body (["?"] ++ po.reverse), hb]
  simp only [ExprStr.emap_ok, ExprStr.ebind_ok]
  rw [ExprStr.visit_frame test (["?"] ++ po.reverse ++ pb.reverse), ht]
  simp [ExprStr.emap_ok, List.append_assoc]

/-- Witness for C5 at the tree of `"y if x else z"`. -/
theorem ifExp_postfix_order_witness :
    ExprStr.postfixTokens (.ifExp (.name "x") (.name "y") (.name "z"))
      = .ok (["x"] ++ ["y"] ++ ["z"] ++ ["?"]) :=
  (ifExp_postfix_order (.name "x") (.name "y") (.name "z")
    ["x"] ["y"] ["z"] rfl rfl rfl).1

namespace ExprStr

/-- Pointwise conversion between argument postfix lists and raw visit
buffers: each argument's buffer is the reverse of its postfix tokens. -/
theorem map_visit_of_map_postfixTokens (args : List PyExpr)
    (posts : List (List String))
    (h : args.map postfixTokens = posts.map Except.ok) :
    args.map (fun a => visit a []) = (posts.map List.reverse).map Except.ok := by
  induction args generalizing posts with
  | nil =>
      cases posts with
      | nil => simp
      | cons p ps => simp at h
  | cons a as ih =>
      cases posts with
      | nil => simp at h
      | cons p ps =>
          simp only [List.map_cons, List.cons.injEq] at h ⊢
          obtain ⟨ha, has⟩ := h
          exact ⟨(postfixTokens_ok_iff a p).mp ha, ih ps has⟩

end ExprStr

/-- C4: for every call of a fixed-arity function `fid` of arity `req`,
called with exactly `req` arguments whose postfix token lists are
`posts`, the compiled token sequence is the arguments' postfix tokens in
left-to-right source order followed by the function name as the last
token; in particular the trees of `"pow(a, b)"` and `"sqrt(abs(a))"`
compile to `"a b pow"` and `"a abs sqrt"`. -/
theorem call_postfix_order (fid : String) (req : Nat)
    (hf : ExprStr.functions fid = some req)
    (args : List PyExpr) (hlen : args.length = req)
    (posts : List (List String))
    (hargs : args.map ExprStr.postfixTokens = posts.map Except.ok) :
    ExprStr.postfixTokens (.call (.name fid) args) = .ok (posts.flatten ++ [fid])
    ∧ ExprStr.compileExpr (.call (.name "pow") [.name "a", .name "b"]) = .ok "a b pow"
    ∧ ExprStr.compileExpr (.call (.name "sqrt") [.call (.name "abs") [.name "a"]])
        = .ok "a abs sqrt" := by
  refine ⟨?_, rfl, rfl⟩
  have hargs' := ExprStr.map_visit_of_map_postfixTokens args posts hargs
  rw [ExprStr.postfixTokens_ok_iff]
  have hne : ¬(args.length ≠ req) := by simp [hlen]
  simp only [ExprStr.visit, hf, if_neg hne, List.nil_append]
  rw [ExprStr.visitArgsRev_frame args [fid],
    ExprStr.visitArgsRev_emits args (posts.map List.reverse) hargs']
  simp [ExprStr.emap_ok, List.reverse_append, List.reverse_flatten]

/-- Witness for C4 at the tree of `"pow(a, b)"`. -/
theorem call_postfix_order_witness :
    ExprStr.postfixTokens (.call (.name "pow") [.name "a", .name "b"])
      = .ok ((([["a"], ["b"]] : List (List String)).flatten) ++ ["pow"]) :=
  (call_postfix_order "pow" 2 rfl [.name "a", .name "b"] rfl
    [["a"], ["b"]] rfl).1

namespace ExprStr

/-- A single-character string is a Python substring of `s` exactly when
its character occurs in `s`. -/
theorem strContains_singleton_iff (c : Char) (l : List Char) :
    strContains [c] l = true ↔ c ∈ l := by
  induction l with
  | nil => simp [strContains, startsWith]
  | cons a as ih =>
      simp [strContains, startsWith, ih, List.mem_cons, beq_iff_eq]

/-- A string of length at most one with nonempty data is a singleton. -/
theorem data_singleton_of_length_one (s : String) (h : s.length = 1) :
    ∃ c, s.data = [c] := by
  have hd : s.data.length = 1 := h
  cases hdata : s.data with
  | nil => rw [hdata] at hd; simp at hd
  | cons c rest =>
      rw [hdata] at hd
      simp at hd
      exact ⟨c, by rw [hd]⟩

end ExprStr

/-- C6: for every identifier node with a nonempty name `s` (the front
end never produces an empty identifier), compilation returns exactly `s`
when `s` is a single lowercase letter of the variable alphabet `a`–`z`,
and fails with the `InvalidVariable` error class otherwise; in particular
the trees of `"a"`, `"ab"` and `"A"` give `"a"`, an error and an error
respectively. -/
theorem name_letter_spec (s : String) (hne : s ≠ "") :
    ExprStr.compileExpr (.name s)
      = (if s.length = 1 ∧ ∀ c ∈ s.data, c ∈ ExprStr.variablesStr.data then
          .ok s
        else
          .error (.invalidVariable s))
    ∧ ExprStr.compileExpr (.name "a") = .ok "a"
    ∧ ExprStr.compileExpr (.name "ab") = .error (.invalidVariable "ab")
    ∧ ExprStr.compileExpr (.name "A") = .error (.invalidVariable "A") := by
  refine ⟨?_, rfl, rfl, rfl⟩
  by_cases h1 : s.length = 1
  · obtain ⟨c, hc⟩ := ExprStr.data_singleton_of_length_one s h1
    by_cases hm : c ∈ ExprStr.variablesStr.data
    · have hcond : (s.length > 1 || !(ExprStr.strContains s.data ExprStr.variablesStr.data)) = false := by
        have : ExprStr.strContains [c] ExprStr.variablesStr.data = true :=
          (ExprStr.strContains_singleton_iff c _).mpr hm
        simp [h1, hc, this]
      have hif : (s.length = 1 ∧ ∀ d ∈ s.data, d ∈ ExprStr.variablesStr.data) := by
        refine ⟨h1, ?_⟩
        intro d hd
        rw [hc] at hd
        simp at hd
        rw [hd]
        exact hm
      rw [if_pos hif]
      simp only [ExprStr.compileExpr, ExprStr.visit, hcond, Bool.false_eq_true, if_false,
        ExprStr.emap_ok, List.nil_append]
      rfl
    · have hcond : (s.length > 1 || !(ExprStr.strContains s.data ExprStr.variablesStr.data)) = true := by
        have : ExprStr.strContains [c] ExprStr.variablesStr.data = false := by
          rw [← Bool.not_eq_true]
          intro hcontra
          exact hm ((ExprStr.strContains_singleton_iff c _).mp hcontra)
        simp [hc, this]
      have hif : ¬(s.length = 1 ∧ ∀ d ∈ s.data, d ∈ ExprStr.variablesStr.data) := by
        rintro ⟨-, hall⟩
        exact hm (hall c (by rw [hc]; simp))
      rw [if_neg hif]
      simp [ExprStr.compileExpr, ExprStr.visit, hcond, ExprStr.emap_error]
  · have hlen : 1 < s.length := by
      have hdne : s.data ≠ [] := fun h => hne (by
        cases s with
        | mk data => simp at h; simp [h])
      have : 0 < s.data.length := List.length_pos.mpr hdne
      have hsl : s.length = s.data.length := rfl
      omega
    have hcond : (s.length > 1 || !(ExprStr.strContains s.data ExprStr.variablesStr.data)) = true := by
      simp [hlen]
    have hif : ¬(s.length = 1 ∧ ∀ d ∈ s.data, d ∈ ExprStr.variablesStr.data) := by
      rintro ⟨h, -⟩
      exact h1 h
    rw [if_neg hif]
    simp [ExprStr.compileExpr, ExprStr.visit, hcond, ExprStr.emap_error]

/-- Witness for C6 at the identifier `"a"`. -/
theorem name_letter_spec_witness :
    ExprStr.compileExpr (.name "ab") = .error (.invalidVariable "ab") :=
  (name_letter_spec "ab" (by decide)).2.2.1

/-- C7: for every call of a function in the fixed-arity table whose
actual argument count differs from the required arity, compilation fails
with the `ArityError` class (carrying the required and provided counts);
in particular the tree of `"max(a)"` fails. -/
theorem call_arity_error (fid : String) (req : Nat) (args : List PyExpr)
    (hf : ExprStr.functions fid = some req) (hargs : args.length ≠ req) :
    ExprStr.compileExpr (.call (.name fid) args)
      = .error (.arityError fid req args.length)
    ∧ ExprStr.compileExpr (.call (.name "max") [.name "a"])
      = .error (.arityError "max" 2 1) := by
  refine ⟨?_, rfl⟩
  simp only [ExprStr.compileExpr, ExprStr.visit, hf, if_pos hargs, ExprStr.emap_error]

/-- Witness for C7 at the tree of `"max(a)"`. -/
theorem call_arity_error_witness :
    ExprStr.compileExpr (.call (.name "max") [.name "a"])
      = .error (.arityError "max" 2 1) :=
  (call_arity_error "max" 2 [.name "a"] rfl (by decide)).1

/-- C8: for every comparison node carrying more than one comparison
operator (a chained comparison), compilation fails with the
`UnsupportedChaining` error class; in particular the tree of
`"a < b < c"` fails. -/
theorem compare_chaining_error (left : PyExpr) (ops : List CmpOpKind)
    (comparators : List PyExpr) (h : 1 < ops.length) :
    ExprStr.compileExpr (.compare left ops comparators)
      = .error .unsupportedChaining
    ∧ ExprStr.compileExpr
        (.compare (.name "a") [.lt, .lt] [.name "b", .name "c"])
      = .error .unsupportedChaining := by
  refine ⟨?_, rfl⟩
  cases ops with
  | nil => simp at h
  | cons op rest =>
      have h' : 0 < rest.length := by simp at h; omega
      simp [ExprStr.compileExpr, ExprStr.visit, h', ExprStr.emap_error]

/-- Witness for C8 at the tree of `"a < b < c"`. -/
theorem compare_chaining_error_witness :
    ExprStr.compileExpr (.compare (.name "a") [.lt, .lt] [.name "b", .name "c"])
      = .error .unsupportedChaining :=
  (compare_chaining_error (.name "a") [.lt, .lt] [.name "b", .name "c"]
    (by decide)).1

/-- C10: for every unary-operator node whose operator is not logical
negation, the operator is missing from the operator table's unary
entries, so compilation fails with a `SyntaxError` of the
`InvalidOperator` class; in particular the tree of `"-1"` (unary minus
applied to the literal `1`) is rejected. -/
theorem unaryOp_non_not_error (op : UnaryOpKind) (operand : PyExpr)
    (h : op ≠ .not) :
    ExprStr.compileExpr (.unaryOp op operand) = .error .invalidOperator
    ∧ ExprStr.compileExpr (.unaryOp .uSub (.num "1"))
      = .error .invalidOperator := by
  refine ⟨?_, rfl⟩
  have hop : ExprStr.operatorsUnary op = none := by
    cases op with
    | not => exact absurd rfl h
    | uSub => rfl
    | uAdd => rfl
    | invert => rfl
  simp [ExprStr.compileExpr, ExprStr.visit, hop, ExprStr.emap_error]

/-- Witness for C10 at the tree of `"-1"`. -/
theorem unaryOp_non_not_error_witness :
    ExprStr.compileExpr (.unaryOp .uSub (.num "1")) = .error .invalidOperator :=
  (unaryOp_non_not_error .uSub (.num "1") (by decide)).1

/-- C2 (refuting evaluation): the visitor has no handler and no error
path for unsupported node kinds — `ast.NodeVisitor.generic_visit` is
inherited and silently traverses children — so the subscript tree of
`"a[b]"` compiles without error to `"b a"`, a string-literal node
compiles to the empty program, and the attribute-access tree of `"a.b"`
compiles to `"a"`.  No `UnsupportedConstruct` failure occurs. -/
theorem unsupported_nodes_silently_compile :
    ExprStr.compileExpr (.subscript (.name "a") (.name "b")) = .ok "b a"
    ∧ ExprStr.compileExpr (.strLit "s") = .ok ""
    ∧ ExprStr.compileExpr (.attributeNode (.name "a") "b") = .ok "a" :=
  ⟨rfl, rfl, rfl⟩

/-- C3 (refuting evaluation): `visit_BoolOp` visits only `values[0]` and
`values[1]`; a boolean-operator node with three operands (the tree of
`"a and b and c"`) does not fail — it silently ignores the third operand
and returns `"b a and"`. -/
theorem boolOp_extra_operands_ignored :
    ExprStr.compileExpr (.boolOp .and [.name "a", .name "b", .name "c"])
      = .ok "b a and"
    ∧ ExprStr.compileExpr (.boolOp .and [.name "a", .name "b"])
      = .ok "b a and" :=
  ⟨rfl, rfl⟩

namespace ExprStr

/-- Every tree has positive depth. -/
theorem one_le_depth (e : PyExpr) : 1 ≤ depth e := by
  cases e <;> simp [depth]

mutual

/-- Fuel no smaller than the nesting depth makes the fuelled visitor
agree with the unfuelled one. -/
theorem visitFuel_eq_visit (fuel : Nat) (e : PyExpr) (h : depth e ≤ fuel)
    (s : List String) : visitFuel fuel e s = some (visit e s) := by
  cases fuel with
  | zero => exact absurd (le_trans (one_le_depth e) h) (by omega)
  | succ n =>
    cases e with
    | num v => simp [visitFuel, visit]
    | name id => simp [visitFuel, visit]; split <;> rfl
    | compare left ops comparators =>
        have hl : depth left ≤ n := by
          simp [depth] at h; omega
        cases ops with
        | nil => simp [visitFuel, visit]
        | cons op rest =>
          cases rest with
          | cons op2 rest2 =>
              have hch : ((op :: op2 :: rest2).length > 1) := by simp
              simp [visitFuel, visit, hch]
          | nil =>
            cases hop : operatorsCmp op with
            | none => simp [visitFuel, visit, hop]
            | some m =>
              cases comparators with
              | nil => simp [visitFuel, visit, hop]
              | cons c cs =>
                have hc : depth c ≤ n := by
                  simp [depth, depthList] at h; omega
                simp only [visitFuel, visit, hop]
                rw [visitFuel_eq_visit n c hc (s ++ [m])]
                cases hv : visit c (s ++ [m]) with
                | error err => simp [andThenF, ebind_error]
                | ok s1 =>
                    simp only [andThenF, ebind_ok]
                    exact visitFuel_eq_visit n left hl s1
    | unaryOp op operand =>
        have hd : depth operand ≤ n := by simp [depth] at h; omega
        cases hop : operatorsUnary op with
        | none => simp [visitFuel, visit, hop]
        | some m =>
            simp only [visitFuel, visit, hop]
            exact visitFuel_eq_visit n operand hd (s ++ [m])
    | boolOp op values =>
        cases hop : operatorsBool op with
        | none => simp [visitFuel, visit, hop]
        | some m =>
          match values with
          | [] => simp [visitFuel, visit, hop]
          | [v] => simp [visitFuel, visit, hop]
          | v0 :: v1 :: rest =>
            have h0 : depth v0 ≤ n := by simp [depth, depthList] at h; omega
            have h1 : depth v1 ≤ n := by simp [depth, depthList] at h; omega
            simp only [visitFuel, visit, hop]
            rw [visitFuel_eq_visit n v0 h0 (s ++ [m])]
            cases hv : visit v0 (s ++ [m]) with
            | error err => simp [andThenF, ebind_error]
            | ok s1 =>
                simp only [andThenF, ebind_ok]
                exact visitFuel_eq_visit n v1 h1 s1
    | binOp left op right =>
        have hl : depth left ≤ n := by simp [depth] at h; omega
        have hr : depth right ≤ n := by simp [depth] at h; omega
        cases hop : operatorsBin op with
        | none => simp [visitFuel, visit, hop]
        | some m =>
            simp only [visitFuel, visit, hop]
            rw [visitFuel_eq_visit n right hr (s ++ [m])]
            cases hv : visit right (s ++ [m]) with
            | error err => simp [andThenF, ebind_error]
            | ok s1 =>
                simp only [andThenF, ebind_ok]
                exact visitFuel_eq_visit n left hl s1
    | call func args =>
        cases func with
        | name fid =>
          cases hf : functions fid with
          | none => simp [visitFuel, visit, hf]
          | some req =>
            by_cases ha : args.length ≠ req
            · simp [visitFuel, visit, hf, ha]
            · have hargs : depthList args ≤ n := by simp [depth] at h; omega
              simp only [visitFuel, visit, hf, if_neg ha]
              exact visitArgsRevFuel_eq_visitArgsRev n args hargs (s ++ [fid])
        | num v => simp [visitFuel, visit]
        | compare l o c => simp [visitFuel, visit]
        | unaryOp o oper => simp [visitFuel, visit]
        | boolOp o vs => simp [visitFuel, visit]
        | binOp l o r => simp [visitFuel, visit]
        | call f as => simp [visitFuel, visit]
        | ifExp t b o => simp [visitFuel, visit]
        | strLit v => simp [visitFuel, visit]
        | subscript v sl => simp [visitFuel, visit]
        | attributeNode v a => simp [visitFuel, visit]
    | ifExp test body orelse =>
        have ht : depth test ≤ n := by simp [depth] at h; omega
        have hb : depth body ≤ n := by simp [depth] at h; omega
        have ho : depth orelse ≤ n := by simp [depth] at h; omega
        simp only [visitFuel, visit]
        rw [visitFuel_eq_visit n orelse ho (s ++ ["?"])]
        cases hv : visit orelse (s ++ ["?"]) with
        | error err => simp [andThenF, ebind_error]
        | ok s1 =>
            simp only [andThenF, ebind_ok]
            rw [visitFuel_eq_visit n body hb s1]
            cases hv2 : visit body s1 with
            | error err => simp [andThenF, ebind_error]
            | ok s2 =>
                simp only [andThenF, ebind_ok]
                exact visitFuel_eq_visit n test ht s2
    | strLit v => simp [visitFuel, visit]
    | subscript value slice =>
        have hv' : depth value ≤ n := by simp [depth] at h; omega
        have hs' : depth slice ≤ n := by simp [depth] at h; omega
        simp only [visitFuel, visit]
        rw [visitFuel_eq_visit n value hv' s]
        cases hv : visit value s with
        | error err => simp [andThenF, ebind_error]
        | ok s1 =>
            simp only [andThenF, ebind_ok]
            exact visitFuel_eq_visit n slice hs' s1
    | attributeNode value a =>
        have hv' : depth value ≤ n := by simp [depth] at h; omega
        simp only [visitFuel, visit]
        exact visitFuel_eq_visit n value hv' s
termination_by (fuel, 0)

/-- Fuel no smaller than every element's depth makes the fuelled
argument loop agree with the unfuelled one. -/
theorem visitArgsRevFuel_eq_visitArgsRev (fuel : Nat) (l : List PyExpr)
    (h : depthList l ≤ fuel) (s : List String) :
    visitArgsRevFuel fuel l s = some (visitArgsRev l s) := by
  cases l with
  | nil => simp [visitArgsRevFuel, visitArgsRev]
  | cons e es =>
      have he : depth e ≤ fuel := by simp [depthList] at h; omega
      have hes : depthList es ≤ fuel := by simp [depthList] at h; omega
      simp only [visitArgsRevFuel, visitArgsRev]
      rw [visitArgsRevFuel_eq_visitArgsRev fuel es hes s]
      cases hv : visitArgsRev es s with
      | error err => simp [andThenF, ebind_error]
      | ok s1 =>
          simp only [andThenF, ebind_ok]
          exact visitFuel_eq_visit fuel e he s1
termination_by (fuel, l.length + 1)

end

end ExprStr

/-- C9: the recursive visit is total and its recursion is bounded by the
tree's nesting depth: running the visitor with any recursion budget of at
least `depth e` units never exhausts the budget and computes exactly the
unbounded visitor's result — so compilation terminates on every finite
tree. -/
theorem visit_terminates_within_depth (e : PyExpr) (fuel : Nat)
    (h : ExprStr.depth e ≤ fuel) (s : List String) :
    ExprStr.visitFuel fuel e s = some (ExprStr.visit e s) :=
  ExprStr.visitFuel_eq_visit fuel e h s

/-- Witness for C9 at the tree of `"a + b"` with fuel exactly its depth. -/
theorem visit_terminates_within_depth_witness :
    ExprStr.visitFuel 2 (.binOp (.name "a") .add (.name "b")) []
      = some (ExprStr.visit (.binOp (.name "a") .add (.name "b")) []) :=
  visit_terminates_within_depth (.binOp (.name "a") .add (.name "b")) 2
    (by decide) []
